import Mathlib

/-
Verification of the min/max comparison utilities of `bpf/lib/utils.h`.

The header defines statement-expression macros `__min`, `__max`, the
type-inferring wrappers `min`, `max`, the explicitly typed wrappers
`min_t`, `max_t`, and the naive `SIMPLE_MIN`.  Each `__min`/`__max`
invocation binds each operand expression exactly once (`t_x _x = (x);
t_y _y = (y);`), performs a zero-cost type-identity check
(`(void)(&_x == &_y);`), and yields `_x < _y ? _x : _y` (resp. with `>`).

The embedding has three layers:
  - a generic value-level layer over an arbitrary linear order, for the
    case where both operands already have one common type;
  - a C-integer layer (`CIntTy`, `__min`, `__max`, `min_t`, `max_t`)
    where the bindings `t_x _x = (x)` perform C integer conversion and
    the comparison applies C's usual arithmetic conversions;
  - an effectful layer where an operand expression is a state
    transformer `σ → σ × α`, making evaluation counts observable.
-/

namespace BpfUtils

/-- `min(x, y)` for operands that already share one comparable type:
bind each operand once and yield `_x < _y ? _x : _y`
(src/bpf/lib/utils.h, `__min` lines 13-19 via `min` lines 29-30). -/
def min {α : Type} [LinearOrder α] (x y : α) : α :=
  let _x := x
  let _y := y
  if _x < _y then _x else _y

/-- `max(x, y)` for operands that already share one comparable type:
bind each operand once and yield `_x > _y ? _x : _y`
(src/bpf/lib/utils.h, `__max` lines 21-27 via `max` lines 32-33). -/
def max {α : Type} [LinearOrder α] (x y : α) : α :=
  let _x := x
  let _y := y
  if _x > _y then _x else _y

/-- `SIMPLE_MIN(x, y)` at the value level: `((x) < (y) ? (x) : (y))`
(src/bpf/lib/utils.h line 44). -/
def SIMPLE_MIN {α : Type} [LinearOrder α] (x y : α) : α :=
  if x < y then x else y

/-- A C integer type: a bit width and a signedness flag.  Only types of
conversion rank at least that of `int` are modelled, so C's integer
promotions are the identity and are omitted. -/
structure CIntTy where
  bits : Nat
  signed : Bool
  deriving DecidableEq, Repr

/-- The value a C integer conversion to type `t` yields: reduction
modulo `2 ^ t.bits` into `[0, 2^bits)` for an unsigned target, into
`[-2^(bits-1), 2^(bits-1))` for a signed target (two's complement,
as the BPF targets implement the implementation-defined signed case). -/
def CIntTy.conv (t : CIntTy) (v : Int) : Int :=
  if t.signed then (v + 2 ^ (t.bits - 1)) % 2 ^ t.bits - 2 ^ (t.bits - 1)
  else v % 2 ^ t.bits

/-- C's usual arithmetic conversions (C17 6.3.1.8) on two integer types
of rank at least `int`, rank ordered by width: same signedness takes
the wider type; mixed signedness takes the unsigned type unless the
signed type is strictly wider (then it represents every value of the
unsigned type and wins). -/
def usualArithConv (a b : CIntTy) : CIntTy :=
  if a.signed = b.signed then ⟨Nat.max a.bits b.bits, a.signed⟩
  else if a.signed then (if b.bits < a.bits then a else b)
  else (if a.bits < b.bits then b else a)

/-- `__min(t_x, t_y, x, y)` over C integers: bind `x` converted to
`t_x` and `y` converted to `t_y`, then evaluate `_x < _y ? _x : _y`,
whose comparison and result convert both bindings to the common type
given by the usual arithmetic conversions (src/bpf/lib/utils.h
lines 13-19). -/
def __min (t_x t_y : CIntTy) (x y : Int) : Int :=
  let _x := t_x.conv x
  let _y := t_y.conv y
  let t := usualArithConv t_x t_y
  if t.conv _x < t.conv _y then t.conv _x else t.conv _y

/-- `__max(t_x, t_y, x, y)` over C integers, as `__min` but with `>`
(src/bpf/lib/utils.h lines 21-27). -/
def __max (t_x t_y : CIntTy) (x y : Int) : Int :=
  let _x := t_x.conv x
  let _y := t_y.conv y
  let t := usualArithConv t_x t_y
  if t.conv _x > t.conv _y then t.conv _x else t.conv _y

/-- `min_t(t, x, y)` = `__min(t, t, x, y)` (src/bpf/lib/utils.h
lines 35-36). -/
def min_t (t : CIntTy) (x y : Int) : Int :=
  __min t t x y

/-- `max_t(t, x, y)` = `__max(t, t, x, y)` (src/bpf/lib/utils.h
lines 38-39). -/
def max_t (t : CIntTy) (x y : Int) : Int :=
  __max t t x y

/-- The 64-bit signed integer type, for the `min_t(int64, 3, 5)`
scenario. -/
def int64 : CIntTy := ⟨64, true⟩

/-- `min(x, y)` when the operand expressions carry observable side
effects, modelled as state transformers `σ → σ × α`: the statement
expression evaluates `x` once (binding `_x`), then `y` once (binding
`_y`), then yields the pure conditional on the bound values. -/
def min_eff {σ α : Type} [LinearOrder α] (x y : σ → σ × α) (s : σ) : σ × α :=
  let p := x s
  let q := y p.1
  (q.1, if p.2 < q.2 then p.2 else q.2)

/-- `max(x, y)` with effectful operand expressions, as `min_eff` but
with `>`. -/
def max_eff {σ α : Type} [LinearOrder α] (x y : σ → σ × α) (s : σ) : σ × α :=
  let p := x s
  let q := y p.1
  (q.1, if p.2 > q.2 then p.2 else q.2)

/-- `SIMPLE_MIN(x, y)` with effectful operand expressions: the
comparison `(x) < (y)` evaluates each operand once (left to right
here; C leaves the order unspecified but the counts are the same),
and the selected branch then re-evaluates that operand. -/
def SIMPLE_MIN_eff {σ α : Type} [LinearOrder α] (x y : σ → σ × α) (s : σ) : σ × α :=
  let p := x s
  let q := y p.1
  if p.2 < q.2 then x q.1 else y q.1

/-- Converting an already-converted value again is the identity. -/
theorem CIntTy.conv_conv (t : CIntTy) (v : Int) :
    t.conv (t.conv v) = t.conv v := by
  unfold CIntTy.conv
  split
  · rw [sub_add_cancel, Int.emod_emod_of_dvd _ dvd_rfl]
  · rw [Int.emod_emod_of_dvd _ dvd_rfl]

/-- The usual arithmetic conversions on one type twice give that type. -/
theorem usualArithConv_self (t : CIntTy) : usualArithConv t t = t := by
  simp [usualArithConv]

theorem min_t_eq (t : CIntTy) (x y : Int) :
    min_t t x y = min (t.conv x) (t.conv y) := by
  simp [min_t, __min, min, usualArithConv_self, CIntTy.conv_conv]

theorem max_t_eq (t : CIntTy) (x y : Int) :
    max_t t x y = max (t.conv x) (t.conv y) := by
  simp [max_t, __max, max, usualArithConv_self, CIntTy.conv_conv]

/-- C1: for operands of one totally-ordered type, `min(x, y)` returns
`x` when `x <= y` and otherwise `y`, and `max(x, y)` returns `x` when
`x >= y` and otherwise `y`; in particular `min(3, 5) = 3`,
`max(3, 5) = 5`, `max(-1, 0) = 0` and `min(7, 7) = 7`. -/
theorem claim_C1 {α : Type} [LinearOrder α] (x y : α) :
    min x y = (if x ≤ y then x else y) ∧
    max x y = (if y ≤ x then x else y) ∧
    min (3 : Int) 5 = 3 ∧ max (3 : Int) 5 = 5 ∧
    max (-1 : Int) 0 = 0 ∧ min (7 : Int) 7 = 7 := by
  refine ⟨?_, ?_, by decide, by decide, by decide, by decide⟩
  · rcases lt_trichotomy x y with h | h | h
    · simp [min, h, le_of_lt h]
    · simp [min, h]
    · simp [min, not_lt_of_gt h, not_le_of_gt h]
  · rcases lt_trichotomy x y with h | h | h
    · simp [max, not_lt_of_gt h, not_le_of_gt h]
    · simp [max, h]
    · simp [max, h, le_of_lt h]

/-- C2: when the operands of `min` or `max` carry observable side
effects, each operand's effect happens exactly once per invocation:
the final state is the second operand's effect after the first
operand's effect, and with instrumented counters each counter rises by
exactly one, for every choice of operand values and start state. -/
theorem claim_C2 {α : Type} [LinearOrder α] (x y : Nat × Nat → (Nat × Nat) × α)
    (vx vy : Nat × Nat → α) (s : Nat × Nat) :
    (min_eff x y s).1 = (y (x s).1).1 ∧
    (max_eff x y s).1 = (y (x s).1).1 ∧
    (min_eff (fun t => ((t.1 + 1, t.2), vx t))
      (fun t => ((t.1, t.2 + 1), vy t)) s).1 = (s.1 + 1, s.2 + 1) ∧
    (max_eff (fun t => ((t.1 + 1, t.2), vx t))
      (fun t => ((t.1, t.2 + 1), vy t)) s).1 = (s.1 + 1, s.2 + 1) := by
  refine ⟨rfl, rfl, rfl, rfl⟩

/-- C3: `min_t(t, x, y)` and `max_t(t, x, y)` convert both operands to
`t` before comparing, and equal `min`/`max` of the converted values;
in particular `min_t(int64, 3, 5) = 3`. -/
theorem claim_C3 (t : CIntTy) (x y : Int) :
    min_t t x y = min (t.conv x) (t.conv y) ∧
    max_t t x y = max (t.conv x) (t.conv y) ∧
    min_t int64 3 5 = 3 := by
  exact ⟨min_t_eq t x y, max_t_eq t x y, by decide⟩

/-- C4: for side-effect-free operands, `SIMPLE_MIN(x, y)` returns the
same value as `min(x, y)`: the naive conditional and the
single-evaluation implementation agree at the value level, and the
effectful forms agree on operands with no side effect. -/
theorem claim_C4 {σ α : Type} [LinearOrder α] (x y : α) (vx vy : α) (s : σ) :
    SIMPLE_MIN x y = min x y ∧
    SIMPLE_MIN_eff (fun t => (t, vx)) (fun t => (t, vy)) s =
      min_eff (fun t => (t, vx)) (fun t => (t, vy)) s := by
  constructor
  · rfl
  · by_cases h : vx < vy <;> simp [SIMPLE_MIN_eff, min_eff, h]

/-- C6: `min(x, x) = x` and `max(x, x) = x` for every `x`. -/
theorem claim_C6 {α : Type} [LinearOrder α] (x : α) :
    min x x = x ∧ max x x = x := by
  constructor <;> simp [min, max]

/-- C7: every operation is a total pure function: on all inputs it
yields a value, and that value is one of the (converted) operands, for
`min`, `max`, `SIMPLE_MIN`, `min_t` and `max_t`. -/
theorem claim_C7 {α : Type} [LinearOrder α] (x y : α) (t : CIntTy) (a b : Int) :
    (min x y = x ∨ min x y = y) ∧
    (max x y = x ∨ max x y = y) ∧
    (SIMPLE_MIN x y = x ∨ SIMPLE_MIN x y = y) ∧
    (min_t t a b = t.conv a ∨ min_t t a b = t.conv b) ∧
    (max_t t a b = t.conv a ∨ max_t t a b = t.conv b) := by
  refine ⟨?_, ?_, ?_, ?_, ?_⟩
  · by_cases h : x < y <;> simp [min, h]
  · by_cases h : x > y <;> simp [max, h]
  · by_cases h : x < y <;> simp [SIMPLE_MIN, h]
  · rw [min_t_eq]
    by_cases h : t.conv a < t.conv b <;> simp [min, h]
  · rw [max_t_eq]
    by_cases h : t.conv a > t.conv b <;> simp [max, h]

/-- Reducing a signed conversion's result modulo `2 ^ w` recovers the
plain residue of the original value. -/
theorem emod_shift (x h m : Int) : ((x + h) % m - h) % m = x % m := by
  conv_lhs => rw [Int.sub_emod, Int.emod_emod_of_dvd _ dvd_rfl, ← Int.sub_emod]
  rw [add_sub_cancel_right]

/-- C8 (counterexample to the claim as stated): at width 32, with
signed operand `x = -2^31` and unsigned operand `y = 2^32 - 1`,
`min(x, y)` returns `2^31` (the converted `x`), not `y`; `x mod 2^32`
does not exceed `y` here. -/
theorem claim_C8_cex :
    __min ⟨32, true⟩ ⟨32, false⟩ (-(2 ^ 31)) (2 ^ 32 - 1) = 2 ^ 31 ∧
    ((2 ^ 31 : Int) ≠ 2 ^ 32 - 1) := by
  decide

/-- C8 (amended): for a signed operand `x < 0` and an unsigned operand
`y` of one width `w`, the comparison happens after the usual arithmetic
conversions, with `x` participating as `x mod 2^w`: `min(x, y)` equals
`min` of `x mod 2^w` and `y`, and it returns `y` exactly when
`y <= x mod 2^w`. -/
theorem claim_C8 (w : Nat) (x y : Int)
    (hx : -(2 ^ (w - 1)) ≤ x) (hx0 : x < 0) (hy0 : 0 ≤ y) (hy : y < 2 ^ w) :
    __min ⟨w, true⟩ ⟨w, false⟩ x y = min (x % 2 ^ w) y ∧
    (__min ⟨w, true⟩ ⟨w, false⟩ x y = y ↔ y ≤ x % 2 ^ w) := by
  have huac : usualArithConv ⟨w, true⟩ ⟨w, false⟩ = ⟨w, false⟩ := by
    simp [usualArithConv]
  have hyy : y % (2 ^ w : Int) = y := Int.emod_eq_of_lt hy0 hy
  have hkey : __min ⟨w, true⟩ ⟨w, false⟩ x y =
      if x % (2 ^ w : Int) < y then x % (2 ^ w : Int) else y := by
    simp only [__min, huac, CIntTy.conv]
    simp [emod_shift, hyy]
  have hmin : min (x % (2 ^ w : Int)) y =
      if x % (2 ^ w : Int) < y then x % (2 ^ w : Int) else y := rfl
  refine ⟨by rw [hkey, hmin], ?_⟩
  rw [hkey]
  by_cases hlt : x % (2 ^ w : Int) < y
  · rw [if_pos hlt]
    constructor
    · intro he
      exact le_of_eq he.symm
    · intro hle
      exact absurd hlt (not_lt.mpr hle)
  · rw [if_neg hlt]
    exact ⟨fun _ => not_lt.mp hlt, fun _ => rfl⟩

/-- C8 witness: the amended theorem applied at width 32 with `x = -1`
and `y = 10`: `min` returns `y = 10` since `-1 mod 2^32 = 2^32 - 1`. -/
theorem claim_C8_witness :
    (-(2 ^ (32 - 1)) ≤ (-1 : Int)) ∧ ((-1 : Int) < 0) ∧ ((0 : Int) ≤ 10) ∧
    ((10 : Int) < 2 ^ 32) ∧
    (__min ⟨32, true⟩ ⟨32, false⟩ (-1) 10 = min ((-1 : Int) % 2 ^ 32) 10 ∧
      (__min ⟨32, true⟩ ⟨32, false⟩ (-1) 10 = 10 ↔
        (10 : Int) ≤ (-1 : Int) % 2 ^ 32)) :=
  ⟨by decide, by decide, by decide, by decide,
    claim_C8 32 (-1) 10 (by decide) (by decide) (by decide) (by decide)⟩

/-- C9: for two operands of one integer type, `(min(x, y), max(x, y))`
is a rearrangement of `(x, y)` (on ties both return the second
operand), so `min(x, y) + max(x, y) = x + y` exactly and hence also
modulo `2 ^ w`, and `min(x, y) <= max(x, y)`. -/
theorem claim_C9 (x y : Int) (w : Nat) :
    ((min x y = x ∧ max x y = y) ∨ (min x y = y ∧ max x y = x)) ∧
    (x = y → min x y = y ∧ max x y = y) ∧
    min x y + max x y = x + y ∧
    min x y ≤ max x y ∧
    (min x y + max x y) % (2 ^ w : Int) = (x + y) % (2 ^ w : Int) := by
  have hperm : (min x y = x ∧ max x y = y) ∨ (min x y = y ∧ max x y = x) := by
    rcases lt_trichotomy x y with h | h | h
    · exact Or.inl ⟨by simp [min, h], by simp [max, not_lt_of_gt h]⟩
    · subst h
      exact Or.inr ⟨by simp [min], by simp [max]⟩
    · exact Or.inr ⟨by simp [min, not_lt_of_gt h], by simp [max, h]⟩
  have hsum : min x y + max x y = x + y := by
    rcases hperm with ⟨h1, h2⟩ | ⟨h1, h2⟩
    · rw [h1, h2]
    · rw [h1, h2, add_comm]
  have hle : min x y ≤ max x y := by
    rcases lt_trichotomy x y with h | h | h
    · rw [(by simp [min, h] : min x y = x), (by simp [max, not_lt_of_gt h] : max x y = y)]
      exact le_of_lt h
    · subst h
      rw [(by simp [min] : min x x = x), (by simp [max] : max x x = x)]
    · rw [(by simp [min, not_lt_of_gt h] : min x y = y), (by simp [max, h] : max x y = x)]
      exact le_of_lt h
  refine ⟨hperm, ?_, hsum, hle, by rw [hsum]⟩
  intro h
  subst h
  exact ⟨by simp [min], by simp [max]⟩

/-- C10: `SIMPLE_MIN` duplicates its arguments: both operands are
evaluated once for the comparison, and the selected operand is then
evaluated a second time, so with instrumented counters the returned
operand's counter rises by two and the other by one. -/
theorem claim_C10 {α : Type} [LinearOrder α] (vx vy : Nat × Nat → α) (a b : Nat) :
    (SIMPLE_MIN_eff (fun t => ((t.1 + 1, t.2), vx t))
      (fun t => ((t.1, t.2 + 1), vy t)) (a, b)).1 =
      (if vx (a, b) < vy (a + 1, b) then (a + 2, b + 1) else (a + 1, b + 2)) := by
  by_cases h : vx (a, b) < vy (a + 1, b) <;> simp [SIMPLE_MIN_eff, h]

end BpfUtils
